import Mathlib

/-!
# Verification of `streaming_api.py`

A shallow embedding of the content-filtering publish/subscribe engine in
`src/my_application/streaming_api.py`, together with theorems settling the
frozen claims about it.

Modelling conventions:

* Redis machine integers and ids are embedded as `Nat`; signed quantities
  (the worker's scan cursor `now`, which can go below zero after
  `now -= abs(backlog)`) are embedded as `Int`.
* Clock readings (`time.time()`) are embedded as integers (`Int`): the
  worker only ever adds the integral `KEEPALIVE_TIMEOUT` to a reading and
  compares readings, and both operations behave the same over any
  archimedean time axis.  The replicator's backoff intervals `.001` and
  `.1` are embedded as the exact rationals `1/1000` and `1/10`; the
  doubling and `min` the code performs on them behave identically there.
* A serialized status message (`Blob`) is `Option Status`: `some st` is a
  valid JSON dump of the status `st`, while `none` embeds the invalid blob
  produced when redis-py string-coerces the Python value `None` into a
  stored `'None'` — a present key whose content `json.loads` rejects.
* The sorted set `QUEUE` (the Log Index) is a strictly ascending list of
  ids; the string keyspace `STATUS_MESSAGE % id` (the Message Store) is a
  function `Nat → Option Blob` (`none` = key absent).
* The outgoing channel is `Option (List Item)`: `none` embeds a channel
  that has been deleted/closed externally.  `rpush` on such a channel
  reports `0`, which is the falsy round-trip result that
  `sent = any(pipeline.execute())` in the worker interprets as the
  channel being gone (the mechanism §4.4 of the spec describes).
-/

/-! ## Constants (lines 35-39 of the source) -/

def CHUNKSIZE : Nat := 100
def MAX_BACKLOG : Nat := 150000
def MAX_OUTGOING_BACKLOG : Nat := 5 * CHUNKSIZE
def NO_MESSAGES_WAIT : Rat := 1/10
def KEEPALIVE_TIMEOUT : Int := 30

/-! ## Data model -/

/-- A deserialized status message.  Only the payload fields the embedded
criteria evaluators consult are carried: `text` (Track), `author` and
`retweeted_by` (Follow), `has_link` (Links).  `retweeted_by = none` embeds a
status JSON object that lacks the `retweeted_by` field, which the source
reads with `status.get('retweeted_by', '')`. -/
structure Status where
  text : String
  author : String
  retweeted_by : Option String
  has_link : Bool
deriving DecidableEq, Repr

/-- A stored blob: `some st` is valid serialized JSON for `st`; `none` is the
invalid `'None'` string that redis-py stores when handed the Python value
`None` (see `got_status` called from `replicator`). -/
abbrev Blob := Option Status

/-- One Redis server's state, restricted to the keys this system uses:
`ID_KEY` (the atomic counter, absent = 0), the sorted set `QUEUE` (the Log
Index, kept as a strictly ascending id list), and the `STATUS_MESSAGE % id`
keys (the Message Store). -/
structure Store where
  idkey : Nat
  queue : List Nat
  msgs : Nat → Option Blob

/-- A value placed on the outgoing channel: a serialized status, a limit
notice `{"limit": {<which>: n}}`, the keepalive heartbeat `'{}'`, or the
close sentinel `'<close>'`. -/
inductive Item where
  | status (b : Blob)
  | limit (which : String) (n : Nat)
  | heartbeat
  | close
deriving DecidableEq, Repr

/-- The outgoing channel: `some l` is a live Redis list holding `l`
(oldest first); `none` is a channel deleted/closed externally. -/
abbrev Channel := Option (List Item)

/-- `LLEN`: length of the list; a deleted/absent key reports 0. -/
def llen : Channel → Nat
  | none => 0
  | some l => l.length

/-- `RPUSH`, returning the new channel and the round-trip result: the list
length after the push for a live channel, and the falsy result `0` for a
channel that is gone. -/
def rpush : Channel → Item → Channel × Nat
  | none, _ => (none, 0)
  | some l, x => (some (l ++ [x]), l.length + 1)

/-- Commit a batch of queued `RPUSH`es in one round trip
(`pipeline.execute()`), returning the channel afterwards and the list of
per-command results. -/
def pushAll (c : Channel) : List Item → Channel × List Nat
  | [] => (c, [])
  | x :: xs =>
      let r := rpush c x
      let rest := pushAll r.1 xs
      (rest.1, r.2 :: rest.2)

/-- `ZADD QUEUE id id` on the ascending-list model of the sorted set. -/
def zadd : List Nat → Nat → List Nat
  | [], i => [i]
  | x :: xs, i =>
      if i < x then i :: x :: xs
      else if i = x then x :: xs
      else x :: zadd xs i

/-- The score window test of `ZRANGEBYSCORE QUEUE now end`: `lo ≤ id` and,
unless the upper bound is the string `'inf'` (embedded `none`), `id ≤ hi`. -/
def scoreOk (lo : Int) (hi : Option Int) (i : Nat) : Bool :=
  decide (lo ≤ (i : Int)) &&
    (match hi with
     | none => true
     | some h => decide ((i : Int) ≤ h))

/-- `ZRANGEBYSCORE QUEUE lo hi start=0 num=num` over the ascending-list
model: the first `num` ids whose score lies in the window. -/
def zrangebyscore (q : List Nat) (lo : Int) (hi : Option Int) (num : Nat) :
    List Nat :=
  (q.filter (scoreOk lo hi)).take num

/-! ## Criteria engine (lines 233-251)

Python string operations are embedded structurally over `List Char`
(`String.data`), so that every evaluator computes by kernel reduction. -/

/-- Python `s.lower()` (character-wise lowering suffices for the claims'
alphabets). -/
def pyLower (s : List Char) : List Char := s.map Char.toLower

/-- Python `s.split(',')`: split at every comma, keeping empty pieces
(so `'alice,'` yields `['alice', '']`). -/
def splitCommaAux : List Char → List Char → List (List Char)
  | [], cur => [cur.reverse]
  | c :: rest, cur =>
      if c = ',' then cur.reverse :: splitCommaAux rest []
      else splitCommaAux rest (c :: cur)

/-- Python `s.split(',')` on a whole string. -/
def splitComma (s : List Char) : List (List Char) :=
  splitCommaAux s []

/-- Python `s.split()` (no argument): split on runs of whitespace,
discarding empty pieces. -/
def splitWsAux : List Char → List Char → List (List Char)
  | [], cur => if cur = [] then [] else [cur.reverse]
  | c :: rest, cur =>
      if c.isWhitespace then
        if cur = [] then splitWsAux rest []
        else cur.reverse :: splitWsAux rest []
      else splitWsAux rest (c :: cur)

/-- Python `s.split()` on a whole string. -/
def splitWs (s : List Char) : List (List Char) :=
  splitWsAux s []

/-- `set(s.lower().split())`: the lowercase word set of a string. -/
def wordSet (s : List Char) : Finset (List Char) :=
  (splitWs (pyLower s)).toFinset

/-- `TrackCriteria.__init__`: `self.words`, one lowercase word set per
comma-separated OR-group of the criteria string. -/
def TrackCriteria.words (list_of_ors : String) : List (Finset (List Char)) :=
  (splitComma list_of_ors.data).map (fun words => wordSet words)

/-- `TrackCriteria.__call__`: true iff some group's word set meets the
status text's word set in exactly `len(setx)` elements
(`len(content & setx) == len(setx)`). -/
def TrackCriteria.call (list_of_ors : String) (status : Status) : Bool :=
  let content := wordSet status.text.data
  (TrackCriteria.words list_of_ors).any
    (fun setx => (content ∩ setx).card == setx.card)

/-- `FollowCriteria.__init__`: `self.people`, the lowercased names of the
comma-separated list (a Python set; the list model is membership-equivalent). -/
def FollowCriteria.people (people : String) : List (List Char) :=
  (splitComma people.data).map (fun user => pyLower user)

/-- `FollowCriteria.__call__`: the lowercased author, or the lowercased
`retweeted_by` field (defaulting to `''` when absent), is in the name set. -/
def FollowCriteria.call (people : String) (status : Status) : Bool :=
  decide (pyLower status.author.data ∈ FollowCriteria.people people) ||
    decide (pyLower (status.retweeted_by.getD "").data
      ∈ FollowCriteria.people people)

/-- The criteria kinds the claims exercise (`which` in `worker`).  The
random sampling kinds (`gardenhose`, `spritzer`) and the float-box
`location` kind are outside the embedded fragment: no claim mentions them. -/
inductive Which where
  | track (content : String)
  | follow (content : String)
  | firehose
  | links
deriving DecidableEq, Repr

/-- The criteria dispatch of `worker` (lines 96-117). -/
def criteria : Which → Status → Bool
  | .track content => TrackCriteria.call content
  | .follow content => FollowCriteria.call content
  | .firehose => fun _ => true
  | .links => fun status => status.has_link

/-- The string the limit notice uses for the criteria kind. -/
def whichName : Which → String
  | .track _ => "track"
  | .follow _ => "follow"
  | .firehose => "firehose"
  | .links => "links"

/-! ## Streaming worker (lines 91-193) -/

/-- The worker's loop-carried variables (lines 124-135).  `endB = none`
embeds the Python string `'inf'`: in Python 2 every int compares smaller
than a string, which is what `while sent and now < end` relies on. -/
structure WState where
  now : Int
  endB : Option Int
  sent : Bool
  tossed : Nat
  tossed_notified : Nat
  keepalive : Int
  last_sent_keepalive : Bool
  chan : Channel

/-- Lines 124-135: compute the scan window from the backlog argument and
initialize the loop variables.  The outgoing channel starts as a fresh empty
list. -/
def workerSetup (store : Store) (backlog : Int) (t0 : Int) : WState :=
  let nowv : Int := store.idkey
  { now := nowv - |backlog|
    endB := if backlog < 0 then some nowv else none
    sent := true
    tossed := 0
    tossed_notified := 0
    keepalive := t0 + KEEPALIVE_TIMEOUT
    last_sent_keepalive := false
    chan := some [] }

/-- The loop guard `sent and now < end` (line 137); `now < 'inf'` is always
true in Python 2. -/
def nowLtEnd (now : Int) : Option Int → Bool
  | none => true
  | some e => decide (now < e)

/-- Line 140: the chunk of ids the iteration fetches. -/
def fetchedIds (store : Store) (s : WState) : List Nat :=
  zrangebyscore store.queue s.now s.endB CHUNKSIZE

/-- The per-batch accumulator of lines 147-167: the round-trip `LLEN`
result (locally incremented per enqueue), the drop counters, the
keepalive flag, the match flag, and the `RPUSH`es queued on the pipeline. -/
structure BAcc where
  outgoing_backlog : Nat
  tossed : Nat
  tossed_notified : Nat
  last_sent_keepalive : Bool
  found_match : Bool
  pushes : List Item

/-- The batch accumulator at the start of a batch: `outgoing_backlog` is the
`LLEN` fetched in the same round trip as the payloads, `found_match = False`,
and no pipeline commands are queued. -/
def initBAcc (s : WState) : BAcc :=
  { outgoing_backlog := llen s.chan
    tossed := s.tossed
    tossed_notified := s.tossed_notified
    last_sent_keepalive := s.last_sent_keepalive
    found_match := false
    pushes := [] }

/-- Lines 156-167: handle one deserialized status that reached the
criteria check. -/
def procOne (which : Which) (result : Status) (a : BAcc) : BAcc :=
  if criteria which result then
    if MAX_OUTGOING_BACKLOG ≤ a.outgoing_backlog then
      { a with tossed := a.tossed + 1 }
    else
      let a := { a with last_sent_keepalive := false }
      let a :=
        if a.tossed_notified ≠ a.tossed then
          { a with
              pushes := a.pushes ++ [Item.limit (whichName which) a.tossed]
              tossed_notified := a.tossed }
        else a
      { a with
          outgoing_backlog := a.outgoing_backlog + 1
          found_match := true
          pushes := a.pushes ++ [Item.status (some result)] }
  else a

/-- Lines 149-167: walk the fetched payloads.  A missing payload
(`if not data: continue`) is skipped; a present but invalid blob makes
`json.loads` raise, which the embedding reports as `none` (the exception
escapes the worker). -/
def procBatch (which : Which) : List (Option Blob) → BAcc → Option BAcc
  | [], a => some a
  | data :: rest, a =>
      match data with
      | none => procBatch which rest a
      | some none => none
      | some (some result) => procBatch which rest (procOne which result a)

/-- The result of one pass of the loop body: either fall through to the
next guard check, or `break` out of the loop. -/
inductive StepRes where
  | next (s : WState)
  | halt (s : WState)

/-- Lines 182-193: the keepalive check at the end of the loop body.
`should_quit = last_sent_keepalive and conn.llen(subscriber)` and the
short-circuiting `or conn.rpush(subscriber, '{}') >= MAX_OUTGOING_BACKLOG`
(the fresh heartbeat is only pushed when the first disjunct is falsy).
On quit the channel is deleted and the loop `break`s. -/
def kaCheck (found_match : Bool) (curtime : Int) (s : WState) : StepRes :=
  if !found_match && decide (s.keepalive < curtime) then
    let s := { s with keepalive := curtime + KEEPALIVE_TIMEOUT }
    if s.last_sent_keepalive && (llen s.chan != 0) then
      StepRes.halt { s with chan := none }
    else
      let p := rpush s.chan Item.heartbeat
      if MAX_OUTGOING_BACKLOG ≤ p.2 then
        StepRes.halt { s with chan := none }
      else
        StepRes.next { s with chan := p.1, last_sent_keepalive := true }
  else StepRes.next s

/-- One pass of the loop body (lines 137-193), at clock reading `curtime`.
Returns `none` when the pass raises (a present-but-invalid blob).  The
`time.sleep(NO_MESSAGES_WAIT)` of the idle branch suspends but changes no
state. -/
def wStep (store : Store) (which : Which) (curtime : Int) (s : WState) :
    Option StepRes :=
  let ids := fetchedIds store s
  if ids = [] then
    match s.endB with
    | none => some (kaCheck false curtime s)
    | some _ => some (StepRes.halt s)
  else
    match procBatch which (ids.map store.msgs) (initBAcc s) with
    | none => none
    | some a =>
        let s1 : WState :=
          { s with
              tossed := a.tossed
              tossed_notified := a.tossed_notified
              last_sent_keepalive := a.last_sent_keepalive }
        let s2 : WState :=
          if a.found_match then
            let pr := pushAll s1.chan a.pushes
            { s1 with
                keepalive := curtime + KEEPALIVE_TIMEOUT
                chan := pr.1
                sent := pr.2.any (fun n => n != 0) }
          else s1
        let s3 : WState := { s2 with now := ((ids.getLastD 0 : Nat) : Int) }
        some (kaCheck a.found_match curtime s3)

/-- The outcome of running the worker loop against a fixed store with a
given list of per-iteration clock readings. -/
inductive RunRes where
  | crashed
  | fuelOut (s : WState)
  | finished (s : WState)

/-- The worker loop `while sent and now < end` (closed system: the store is
fixed and no external consumer drains the channel during the run).  One
clock reading is consumed per pass; `finished` means the loop exited (guard
false or `break`), `fuelOut` that the supplied readings ran out first. -/
def runW (store : Store) (which : Which) :
    List Int → WState → RunRes
  | ts, s =>
      if s.sent && nowLtEnd s.now s.endB then
        match ts with
        | [] => RunRes.fuelOut s
        | t :: ts' =>
            match wStep store which t s with
            | none => RunRes.crashed
            | some (StepRes.next s') => runW store which ts' s'
            | some (StepRes.halt s') => RunRes.finished s'
      else RunRes.finished s

/-! ## Ingest and replicator (lines 41-64, 195-217) -/

/-- `got_status(conn, status, id)` in the explicit-id mode the replicator
uses (lines 53, 60-64): when `id is not None`, `dumped = status` is stored
verbatim — `ZADD QUEUE id id` and `SET STATUS_MESSAGE%id dumped` in one
transactional pipeline.  Here `status` is the raw result of the source
`GET`: `none` when the source payload was absent (Python `None`, which
redis-py string-coerces to the invalid stored blob), `some b` when it was
the blob `b`.  The `id is None` mode (fresh id plus `created_at` stamp) is
not exercised by any claim and is not embedded. -/
def got_status (conn : Store) (status : Option Blob) (id : Nat) : Store :=
  { conn with
      queue := zadd conn.queue id
      msgs := fun j => if j = id then some (status.getD none) else conn.msgs j }

/-- The replicator's loop-carried variables: the backoff interval and the
last observed counter value, plus the destination store it writes. -/
structure RepState where
  sleep : Rat
  thenId : Nat
  dest : Store

/-- The replicator's minimum (reset) poll interval, `.001`. -/
def REP_MIN_SLEEP : Rat := 1/1000

/-- The replicator's maximum poll interval, the `.1` bound in
`sleep = min(.1, 2 * sleep)`. -/
def REP_MAX_SLEEP : Rat := 1/10

/-- One pass of the `replicator` loop (lines 203-217): read the source
counter; if unchanged, double the backoff bounded at `REP_MAX_SLEEP` and
sleep; otherwise fetch the payloads of `xrange(then+1, now+1)` in one
non-transactional pipeline, feed each result to `got_status` on the
destination with its original id, reset the backoff and advance `then`. -/
def replicator_step (source : Store) (r : RepState) : RepState :=
  let nowv := source.idkey
  if nowv = r.thenId then
    { r with sleep := min REP_MAX_SLEEP (2 * r.sleep) }
  else
    let ids := List.range' (r.thenId + 1) (nowv - r.thenId)
    { sleep := REP_MIN_SLEEP
      thenId := nowv
      dest := ids.foldl (fun d i => got_status d (source.msgs i) i) r.dest }

/-! ## Retention trimmer (lines 219-231) -/

/-- One pass of the `cleaner` loop as written.  The source computes
`to_delete = conn.zrange(0, -MAX_BACKLOG)`: redis-py's `zrange` has the
required signature `zrange(name, start, end)`, but the call supplies only
the two rank arguments and omits the `QUEUE` key name, so it raises
`TypeError` before any query or deletion is issued.  The embedding reports
the raised exception as `Except.error`; no pass ever reaches the
`zrem`/`delete` loop of lines 227-229. -/
def cleaner_pass (_conn : Store) : Except String Store :=
  Except.error "TypeError: zrange() requires (name, start, end) but the call conn.zrange(0, -MAX_BACKLOG) omits the QUEUE key"

/-! ## Observation helpers and concrete fixtures -/

/-- The outgoing channel of a run outcome. -/
def runChan : RunRes → Channel
  | RunRes.crashed => none
  | RunRes.fuelOut s => s.chan
  | RunRes.finished s => s.chan

/-- Whether a run used up its clock readings with the loop still live. -/
def isFuelOut : RunRes → Bool
  | RunRes.fuelOut _ => true
  | _ => false

/-- Whether a run exited its loop (guard became false, or `break`). -/
def isFinished : RunRes → Bool
  | RunRes.finished _ => true
  | _ => false

/-- How many copies of an item a channel holds. -/
def countItem (c : Channel) (x : Item) : Nat :=
  match c with
  | none => 0
  | some l => l.count x

/-- The fetched ids whose payload is present and deserializable — exactly
the messages the batch of lines 149-156 evaluates the criteria on. -/
def evaledIds (store : Store) (ids : List Nat) : List Nat :=
  ids.filter (fun i =>
    match store.msgs i with
    | some (some _) => true
    | _ => false)

/-- The status of the worked spec example for Track. -/
def trackExSt : Status :=
  { text := "streaming api rocks", author := "ann", retweeted_by := none,
    has_link := false }

/-- A status whose author is matched by nothing below; its
`retweeted_by` field is absent. -/
def noRtSt : Status :=
  { text := "t", author := "zed", retweeted_by := none, has_link := false }

/-- A generic payload used by the worker fixtures. -/
def mkSt (i : Nat) : Status :=
  { text := "m", author := "a", retweeted_by := none, has_link := i == 3 }

/-- A log holding ids 1-3 with matching payloads. -/
def store3 : Store :=
  { idkey := 3
    queue := [1, 2, 3]
    msgs := fun i => if 1 ≤ i && i ≤ 3 then some (some (mkSt i)) else none }

/-- A log holding ids 1-10 with matching payloads. -/
def store10 : Store :=
  { idkey := 10
    queue := List.range' 1 10
    msgs := fun i => if 1 ≤ i && i ≤ 10 then some (some (mkSt i)) else none }

/-- A log whose single indexed id 1 has lost its payload. -/
def storeGap : Store :=
  { idkey := 1, queue := [1], msgs := fun _ => none }

/-- A log with one valid message, id 1. -/
def store1 : Store :=
  { idkey := 1, queue := [1], msgs := fun i => if i = 1 then some (some (mkSt 1)) else none }

/-- A store with nothing in it. -/
def emptyStore : Store := { idkey := 0, queue := [], msgs := fun _ => none }

/-- A log whose index holds `MAX_BACKLOG + 1` ids, all with payloads: the
retention trimmer is supposed to bring it back under the bound. -/
def bigStore : Store :=
  { idkey := MAX_BACKLOG + 1
    queue := List.range' 1 (MAX_BACKLOG + 1)
    msgs := fun _ => some (some (mkSt 1)) }

/-- Whether a loop-body pass fell through to the next guard check
(no exception, no `break`). -/
def stepIsNext : Option StepRes → Bool
  | some (StepRes.next _) => true
  | _ => false

/-- The outgoing channel after a loop-body pass (`none` for a raised
exception, where no channel state is reached). -/
def stepChan : Option StepRes → Channel
  | some (StepRes.next s) => s.chan
  | some (StepRes.halt s) => s.chan
  | none => none

/-- The queue of the store is strictly ascending — the Log Index invariant
the `ZADD`-by-id discipline maintains. -/
def sortedQueue (store : Store) : Prop := store.queue.Pairwise (· < ·)

/-- Every indexed id is at most the counter — the invariant that ids are
only handed out by `INCR ID_KEY`. -/
def idsBounded (store : Store) : Prop := ∀ i ∈ store.queue, i ≤ store.idkey

/-- No stored blob is the invalid `'None'` string (true of every store
populated only through the fresh-id ingest path). -/
def noGarbage (store : Store) : Prop := ∀ i, store.msgs i ≠ some none

/-- The worker run of the C4 counterexample: ids 1-10 all present and
matching, `backlog = -5`, clock held before the keepalive deadline. -/
def run4 : RunRes := runW store10 Which.firehose [0, 0] (workerSetup store10 (-5) 0)

/-- The worker run of the C9 boundary example: ids 1-3 all present and
matching, `backlog = 3` (live tail), two passes. -/
def run9 : RunRes := runW store3 Which.firehose [0, 0] (workerSetup store3 3 0)

/-- The worker run of the C7 keepalive example: an idle log, two clock
readings each past the current keepalive deadline. -/
def runKa : RunRes := runW emptyStore Which.firehose [31, 62] (workerSetup emptyStore 0 0)

/-- A worker state whose outgoing channel is gone (deleted externally),
positioned to scan `store1`. -/
def goneState : WState :=
  { now := 0, endB := none, sent := true, tossed := 0, tossed_notified := 0,
    keepalive := 30, last_sent_keepalive := false, chan := none }

/-- The batch outcome of scanning `store1`'s single matching message with
the channel gone. -/
def aGone : BAcc :=
  { outgoing_backlog := 1, tossed := 0, tossed_notified := 0,
    last_sent_keepalive := false, found_match := true,
    pushes := [Item.status (some (mkSt 1))] }

/-- A worker state whose outgoing channel is pinned at
`MAX_OUTGOING_BACKLOG` unread items. -/
def pinState : WState :=
  { now := 0, endB := none, sent := true, tossed := 0, tossed_notified := 0,
    keepalive := 30, last_sent_keepalive := false,
    chan := some (List.replicate MAX_OUTGOING_BACKLOG Item.heartbeat) }

/-- A worker state that sent a heartbeat last iteration which is still
unread, with its keepalive deadline at 30. -/
def kaState : WState :=
  { now := 0, endB := none, sent := true, tossed := 0, tossed_notified := 0,
    keepalive := 30, last_sent_keepalive := true, chan := some [Item.heartbeat] }

/-- A fresh replicator state: minimum backoff, nothing observed yet, empty
destination. -/
def rep0 : RepState := { sleep := REP_MIN_SLEEP, thenId := 0, dest := emptyStore }

/-- One replicator pass over `storeGap` (id 1 indexed, payload missing). -/
def repGap : RepState := replicator_step storeGap rep0

/-- The worker state after the first pass of the C9 example: position at the
last scanned id 3, with ids 1-3 already delivered. -/
def rescanS1 : WState :=
  { now := 3, endB := none, sent := true, tossed := 0, tossed_notified := 0,
    keepalive := 30, last_sent_keepalive := false,
    chan := some [Item.status (some (mkSt 1)), Item.status (some (mkSt 2)),
      Item.status (some (mkSt 3))] }

/-! ## Helper lemmas -/

lemma card_inter_eq_iff_subset {α : Type} [DecidableEq α] (s t : Finset α) :
    (s ∩ t).card = t.card ↔ t ⊆ s := by
  constructor
  · intro h
    have hsub : s ∩ t ⊆ t := Finset.inter_subset_right
    have : s ∩ t = t := Finset.eq_of_subset_of_card_le hsub (le_of_eq h.symm)
    exact Finset.inter_eq_right.mp this
  · intro h
    rw [Finset.inter_eq_right.mpr h]

lemma mem_zadd_self (q : List Nat) (i : Nat) : i ∈ zadd q i := by
  induction q with
  | nil => simp [zadd]
  | cons x xs ih =>
      rw [zadd]
      by_cases h1 : i < x
      · simp [h1]
      · by_cases h2 : i = x
        · simp [h1, h2]
        · simp only [if_neg h1, if_neg h2]
          exact List.mem_cons_of_mem _ ih

lemma mem_zadd_of_mem {q : List Nat} {j : Nat} (h : j ∈ q) (i : Nat) :
    j ∈ zadd q i := by
  induction q with
  | nil => cases h
  | cons x xs ih =>
      rw [zadd]
      by_cases h1 : i < x
      · rw [if_pos h1]
        exact List.mem_cons_of_mem _ h
      · by_cases h2 : i = x
        · simpa [h1, h2] using h
        · simp only [if_neg h1, if_neg h2]
          rcases List.mem_cons.mp h with rfl | hx
          · exact List.mem_cons_self _ _
          · exact List.mem_cons_of_mem _ (ih hx)

lemma repFold_msgs (source : Store) (ids : List Nat) (d : Store) (j : Nat) :
    ((ids.foldl (fun d i => got_status d (source.msgs i) i) d).msgs j) =
      if j ∈ ids then some ((source.msgs j).getD none) else d.msgs j := by
  induction ids generalizing d with
  | nil => simp
  | cons x xs ih =>
      simp only [List.foldl_cons, ih]
      by_cases hx : j ∈ xs
      · simp [hx, List.mem_cons]
      · by_cases hj : j = x
        · subst hj
          simp [hx, got_status]
        · simp [hx, hj, got_status, List.mem_cons]

lemma repFold_queue (source : Store) (ids : List Nat) (d : Store) (i : Nat)
    (h : i ∈ ids ∨ i ∈ d.queue) :
    i ∈ (ids.foldl (fun d i => got_status d (source.msgs i) i) d).queue := by
  induction ids generalizing d with
  | nil => simpa using h.resolve_left (by simp)
  | cons x xs ih =>
      simp only [List.foldl_cons]
      apply ih
      rcases h with hx | hd
      · rcases List.mem_cons.mp hx with rfl | hxs
        · right
          exact mem_zadd_self _ _
        · left
          exact hxs
      · right
        exact mem_zadd_of_mem hd _

lemma pushAll_gone (items : List Item) :
    pushAll none items = (none, List.replicate items.length 0) := by
  induction items with
  | nil => rfl
  | cons x xs ih => simp [pushAll, rpush, ih, List.replicate_succ]

lemma any_replicate_zero (n : Nat) :
    (List.replicate n (0 : Nat)).any (fun m => m != 0) = false := by
  induction n with
  | zero => rfl
  | succ k ih => simp [List.replicate_succ, ih]

lemma kaCheck_found (t : Int) (s : WState) : kaCheck true t s = StepRes.next s := by
  simp [kaCheck]

lemma kaCheck_late {t : Int} {s : WState} (h : ¬ (s.keepalive < t)) :
    kaCheck false t s = StepRes.next s := by
  unfold kaCheck
  simp [h]

lemma kaCheck_inert {fm : Bool} {t : Int} {s : WState}
    (h : fm = true ∨ ¬ (s.keepalive < t)) :
    kaCheck fm t s = StepRes.next s := by
  unfold kaCheck
  rcases h with rfl | hne
  · simp
  · simp [hne]

lemma kaCheck_next_fields {fm : Bool} {t : Int} {s s' : WState}
    (h : kaCheck fm t s = StepRes.next s') :
    s'.now = s.now ∧ s'.endB = s.endB ∧ s'.sent = s.sent := by
  unfold kaCheck at h
  dsimp only at h
  split at h
  · split at h
    · cases h
    · split at h
      · cases h
      · cases h
        exact ⟨rfl, rfl, rfl⟩
  · cases h
    exact ⟨rfl, rfl, rfl⟩

lemma runW_unsent (store : Store) (which : Which) (ts : List Int) (s : WState)
    (h : s.sent = false) : runW store which ts s = RunRes.finished s := by
  rw [runW.eq_def]
  simp [h]

lemma runW_done (store : Store) (which : Which) (ts : List Int) (s : WState)
    (h : (s.sent && nowLtEnd s.now s.endB) = false) :
    runW store which ts s = RunRes.finished s := by
  rw [runW.eq_def]
  simp [h]

lemma mem_zrange {q : List Nat} {lo : Int} {hi : Option Int} {num : Nat} {i : Nat}
    (h : i ∈ zrangebyscore q lo hi num) : i ∈ q ∧ scoreOk lo hi i = true := by
  have := List.mem_of_mem_take h
  exact List.mem_filter.mp this

lemma getLastD_mem : ∀ (l : List Nat), l ≠ [] → ∀ d, l.getLastD d ∈ l
  | [], h, _ => absurd rfl h
  | [x], _, d => by simp
  | x :: y :: ys, _, d => by
      rw [List.getLastD_cons]
      exact List.mem_cons_of_mem _ (getLastD_mem (y :: ys) (by simp) x)

lemma getLastD_of_upper : ∀ {l : List Nat} {M : Nat},
    l.Pairwise (· < ·) → M ∈ l → (∀ i ∈ l, i ≤ M) → ∀ d, l.getLastD d = M
  | [], M, _, hM, _, _ => absurd hM (by simp)
  | [x], M, _, hM, hub, d => by
      simp only [List.mem_singleton] at hM
      simp [hM]
  | x :: y :: ys, M, hs, hM, hub, d => by
      rw [List.getLastD_cons]
      have htail : M ∈ y :: ys := by
        rcases List.mem_cons.mp hM with rfl | h
        · exfalso
          have hxy : M < y := (List.pairwise_cons.mp hs).1 y (List.mem_cons_self _ _)
          have := hub y (by simp)
          omega
        · exact h
      exact getLastD_of_upper (List.pairwise_cons.mp hs).2 htail
        (fun i hi => hub i (List.mem_cons_of_mem _ hi)) x

lemma head_filter_at_lo : ∀ {q : List Nat}, q.Pairwise (· < ·) →
    ∀ {k : Nat} {hi : Option Int}, k ∈ q → scoreOk (k : Int) hi k = true →
    (q.filter (scoreOk (k : Int) hi)).head? = some k
  | [], _, k, hi, hk, _ => absurd hk (by simp)
  | x :: xs, hs, k, hi, hk, hok => by
      rcases List.mem_cons.mp hk with rfl | hmem
      · rw [List.filter_cons, if_pos hok]
        rfl
      · have hxk : x < k := (List.pairwise_cons.mp hs).1 k hmem
        have hxno : scoreOk (k : Int) hi x = false := by
          unfold scoreOk
          simp only [Bool.and_eq_false_iff]
          left
          simp
          omega
        rw [List.filter_cons, hxno]
        simp only [Bool.false_eq_true, if_false]
        exact head_filter_at_lo (List.pairwise_cons.mp hs).2 hmem hok

lemma head_mem_take {l : List Nat} {k n : Nat} (h : l.head? = some k) (hn : 0 < n) :
    (l.take n).head? = some k := by
  cases l with
  | nil => simp at h
  | cons x xs =>
      cases n with
      | zero => omega
      | succ m => simpa using h

lemma procBatch_total (which : Which) (l : List (Option Blob))
    (h : ∀ d ∈ l, d ≠ some none) :
    ∀ a, ∃ a', procBatch which l a = some a' := by
  induction l with
  | nil => exact fun a => ⟨a, rfl⟩
  | cons d rest ih =>
      intro a
      match hd : d with
      | none =>
          exact ih (fun x hx => h x (List.mem_cons_of_mem _ hx)) a
      | some none =>
          exact absurd rfl (h (some none) (List.mem_cons_self _ _))
      | some (some st) =>
          exact ih (fun x hx => h x (List.mem_cons_of_mem _ hx)) (procOne which st a)

lemma length_le_one_of_all_eq {l : List Nat} (hn : l.Nodup) {M : Nat}
    (h : ∀ i ∈ l, i = M) : l.length ≤ 1 := by
  match l, hn, h with
  | [], _, _ => simp
  | [x], _, _ => simp
  | x :: y :: ys, hn, h =>
      exfalso
      have hx : x = M := h x (List.mem_cons_self _ _)
      have hy : y = M := h y (List.mem_cons_of_mem _ (List.mem_cons_self _ _))
      have := (List.nodup_cons.mp hn).1
      exact this (by rw [hx, hy]; exact List.mem_cons_self _ _)

lemma window_filter_facts (store : Store) (hs : sortedQueue store)
    (hM : store.idkey ∈ store.queue) :
    (store.queue.filter
        (scoreOk ((store.idkey : Int) - 5) (some (store.idkey : Int)))).length ≤ 6 ∧
    store.idkey ∈ store.queue.filter
        (scoreOk ((store.idkey : Int) - 5) (some (store.idkey : Int))) ∧
    ∀ d, (store.queue.filter
        (scoreOk ((store.idkey : Int) - 5) (some (store.idkey : Int)))).getLastD d
          = store.idkey := by
  set M := store.idkey with hMdef
  set f := store.queue.filter (scoreOk ((M : Int) - 5) (some (M : Int))) with hf
  have hnodup : store.queue.Nodup := hs.imp (fun h => Nat.ne_of_lt h)
  have hfnodup : f.Nodup := hnodup.filter _
  have hfsorted : f.Pairwise (· < ·) := hs.sublist (List.filter_sublist _)
  have hbounds : ∀ i ∈ f, (M : Int) - 5 ≤ (i : Int) ∧ i ≤ M := by
    intro i hi
    rcases List.mem_filter.mp hi with ⟨_, hok⟩
    unfold scoreOk at hok
    rw [Bool.and_eq_true] at hok
    rcases hok with ⟨h1, h2⟩
    rw [decide_eq_true_eq] at h1
    simp only [decide_eq_true_eq] at h2
    exact ⟨h1, by exact_mod_cast h2⟩
  have hMf : M ∈ f := by
    rw [hf]
    refine List.mem_filter.mpr ⟨hM, ?_⟩
    unfold scoreOk
    simp only [Bool.and_eq_true, decide_eq_true_eq]
    omega
  refine ⟨?_, hMf, ?_⟩
  · have hsub : f.toFinset ⊆ Finset.Icc (M - 5) M := by
      intro i hi
      rw [List.mem_toFinset] at hi
      rcases hbounds i hi with ⟨h1, h2⟩
      rw [Finset.mem_Icc]
      omega
    have h1 : f.length = f.toFinset.card := (List.toFinset_card_of_nodup hfnodup).symm
    have h2 : f.toFinset.card ≤ (Finset.Icc (M - 5) M).card := Finset.card_le_card hsub
    rw [Nat.card_Icc] at h2
    omega
  · intro d
    exact getLastD_of_upper hfsorted hMf (fun i hi => (hbounds i hi).2) d

lemma wStep_to_M (store : Store) (which : Which) (t : Int) (s : WState)
    (hng : noGarbage store)
    (hne : fetchedIds store s ≠ [])
    (hlast : ∀ d, (fetchedIds store s).getLastD d = store.idkey)
    (hka : ¬ (s.keepalive < t)) :
    ∃ s', wStep store which t s = some (StepRes.next s') ∧
      s'.now = (store.idkey : Int) ∧ s'.endB = s.endB := by
  obtain ⟨a, hba⟩ := procBatch_total which ((fetchedIds store s).map store.msgs)
    (by
      intro d hd
      rcases List.mem_map.mp hd with ⟨i, _, rfl⟩
      exact hng i)
    (initBAcc s)
  rw [wStep, if_neg hne, hba]
  by_cases hfm : a.found_match = true
  · simp only [hfm, if_true]
    rw [kaCheck_found]
    exact ⟨_, rfl, congrArg (fun n : Nat => (n : Int)) (hlast 0), rfl⟩
  · rw [Bool.not_eq_true] at hfm
    simp only [hfm, Bool.false_eq_true, if_false]
    rw [kaCheck_late]
    · exact ⟨_, rfl, congrArg (fun n : Nat => (n : Int)) (hlast 0), rfl⟩
    · exact hka

lemma bp_pinned (which : Which) (ms : List Status) (a : BAcc)
    (hall : ∀ m ∈ ms, criteria which m = true)
    (hb : MAX_OUTGOING_BACKLOG ≤ a.outgoing_backlog) :
    procBatch which (ms.map (fun m => some (some m))) a
      = some { a with tossed := a.tossed + ms.length } := by
  induction ms generalizing a with
  | nil => simp [procBatch]
  | cons m rest ih =>
      simp only [List.map_cons, procBatch]
      rw [procOne, if_pos (hall m (List.mem_cons_self m rest)), if_pos hb]
      rw [ih { a with tossed := a.tossed + 1 }
        (fun x hx => hall x (List.mem_cons_of_mem _ hx)) hb]
      simp only [List.length_cons]
      have h3 : a.tossed + 1 + rest.length = a.tossed + (rest.length + 1) := by omega
      rw [h3]

lemma bp_notice (which : Which) (st : Status) (a : BAcc)
    (hm : criteria which st = true)
    (hb : a.outgoing_backlog < MAX_OUTGOING_BACKLOG)
    (hn : a.tossed_notified ≠ a.tossed) :
    procOne which st a =
      { a with
          last_sent_keepalive := false
          tossed_notified := a.tossed
          outgoing_backlog := a.outgoing_backlog + 1
          found_match := true
          pushes := a.pushes ++
            [Item.limit (whichName which) a.tossed, Item.status (some st)] } := by
  obtain ⟨ob, tc, tn, lsk, fm, ps⟩ := a
  simp only at hb hn
  rw [procOne, if_pos hm, if_neg (by simp only; omega)]
  simp only []
  rw [if_pos hn]
  simp [List.append_assoc]

lemma wStep_rescan (store : Store) (which : Which) (t : Int) (s s' : WState)
    (hs : sortedQueue store)
    (hne : fetchedIds store s ≠ [])
    (hstep : wStep store which t s = some (StepRes.next s'))
    (k : Nat) (hk : k = (fetchedIds store s).getLastD 0) :
    s'.now = (k : Int) ∧ s'.endB = s.endB ∧
    (fetchedIds store s').head? = some k ∧
    (∀ st, store.msgs k = some (some st) →
      k ∈ evaledIds store (fetchedIds store s')) := by
  subst hk
  have hkmem : (fetchedIds store s).getLastD 0 ∈ fetchedIds store s :=
    getLastD_mem _ hne 0
  obtain ⟨hkq, hkok⟩ := mem_zrange hkmem
  rw [wStep] at hstep
  rw [if_neg hne] at hstep
  rcases hb : procBatch which ((fetchedIds store s).map store.msgs) (initBAcc s)
      with _ | a
  · rw [hb] at hstep
    cases hstep
  · rw [hb] at hstep
    have hok2 : scoreOk ((fetchedIds store s).getLastD 0 : Int) s.endB
        ((fetchedIds store s).getLastD 0) = true := by
      unfold scoreOk at hkok ⊢
      rw [Bool.and_eq_true] at hkok
      rcases hkok with ⟨_, h2'⟩
      rw [h2']
      simp
    have hh := head_filter_at_lo hs hkq hok2
    have main : s'.now = ((fetchedIds store s).getLastD 0 : Int) ∧
        s'.endB = s.endB := by
      by_cases hfm : a.found_match = true
      · simp only [hfm, if_true] at hstep
        have h2 := Option.some.inj hstep
        obtain ⟨e1, e2, _⟩ := kaCheck_next_fields h2
        exact ⟨e1, e2⟩
      · rw [Bool.not_eq_true] at hfm
        simp only [hfm, Bool.false_eq_true, if_false] at hstep
        have h2 := Option.some.inj hstep
        obtain ⟨e1, e2, _⟩ := kaCheck_next_fields h2
        exact ⟨e1, e2⟩
    rcases main with ⟨e1, e2⟩
    have hhead : (fetchedIds store s').head? = some ((fetchedIds store s).getLastD 0) := by
      unfold fetchedIds zrangebyscore
      rw [e1, e2]
      exact head_mem_take hh (by norm_num [CHUNKSIZE])
    refine ⟨e1, e2, hhead, ?_⟩
    intro st hst
    have hmem' : (fetchedIds store s).getLastD 0 ∈ fetchedIds store s' :=
      List.mem_of_mem_head? hhead
    unfold evaledIds
    refine List.mem_filter.mpr ⟨hmem', ?_⟩
    rw [hst]

/-! ## Claim theorems -/

/-- C1: the Retention Trimmer cannot establish the `MAX_BACKLOG` bound.
`cleaner` computes `to_delete = conn.zrange(0, -MAX_BACKLOG)` without the
`QUEUE` key argument, so every pass raises `TypeError` before any
`zrem`/`delete` is issued; on a store whose Log Index holds
`MAX_BACKLOG + 1` ids, the index stays above the bound after the pass. -/
theorem cleaner_pass_never_trims :
    (∃ msg, cleaner_pass bigStore = Except.error msg) ∧
    MAX_BACKLOG < bigStore.queue.length := by
  refine ⟨⟨_, rfl⟩, ?_⟩
  show MAX_BACKLOG < (List.range' 1 (MAX_BACKLOG + 1)).length
  rw [List.length_range']
  omega

/-- C2: when the combined result of the batched enqueue round trip is falsy
(every `RPUSH` reported 0 because the outgoing channel is gone),
`sent = any(...)` becomes false, the iteration falls through without
touching the keepalive branch, and the loop guard ends the worker: no
further pass — and hence no further write to the channel — happens. -/
theorem worker_channel_gone_stops (store : Store) (which : Which) (t : Int)
    (s : WState) (a : BAcc)
    (hgone : s.chan = none)
    (hids : ¬ fetchedIds store s = [])
    (hbatch : procBatch which ((fetchedIds store s).map store.msgs) (initBAcc s)
      = some a)
    (hfm : a.found_match = true) :
    ∃ s', wStep store which t s = some (StepRes.next s') ∧
      s'.sent = false ∧ s'.chan = none ∧
      ∀ ts, runW store which ts s' = RunRes.finished s' := by
  rw [wStep]
  simp only [if_neg hids, hbatch]
  rw [if_pos hfm]
  simp only [hgone, pushAll_gone, any_replicate_zero]
  rw [hfm, kaCheck_found]
  exact ⟨_, rfl, rfl, rfl, fun ts => runW_unsent _ _ _ _ rfl⟩

/-- C2 witness: a log with one matching message and a channel already gone:
the batch finds the match, the commit reports all-zero, and the worker
finishes. -/
theorem worker_channel_gone_stops_witness :
    ∃ s', wStep store1 Which.firehose 0 goneState = some (StepRes.next s') ∧
      s'.sent = false ∧ s'.chan = none ∧
      ∀ ts, runW store1 Which.firehose ts s' = RunRes.finished s' :=
  worker_channel_gone_stops store1 Which.firehose 0 goneState aGone rfl
    (by decide) (by rfl) rfl

/-- C3: the worker does skip an indexed id with a missing payload silently
(`if not data: continue` — the batch neither raises nor pushes anything),
but the Replicator does not: on a source whose id 1 is indexed with no
payload, the replicator pass feeds the raw `None` to `got_status`, which
installs id 1 into the destination Log Index and stores the coerced
`'None'` blob under its message key — it re-ingests, rather than skips,
the missing payload. -/
theorem replicator_reingests_missing :
    (∀ (which : Which) (a : BAcc), procBatch which [none] a = some a) ∧
    stepIsNext (wStep storeGap Which.firehose 0 (workerSetup storeGap 0 0)) = true ∧
    stepChan (wStep storeGap Which.firehose 0 (workerSetup storeGap 0 0)) = some [] ∧
    repGap.dest.msgs 1 = some none ∧
    repGap.dest.queue = [1] :=
  ⟨fun _ _ => rfl, by rfl, by rfl, by rfl, by rfl⟩

/-- C4 counterexample: on a log holding ids 1-10 with all payloads present
and matching, a worker started with `backlog = -5` delivers SIX messages
(ids 5-10): the scan window `[CurrentMax - 5, CurrentMax]` of
`zrangebyscore` is inclusive at both ends, so the claim's "at most the 5
most-recent-at-start messages" is false. -/
theorem backlog_minus_five_six_messages :
    isFinished run4 = true ∧
    runChan run4 = some ((List.range' 5 6).map (fun i => Item.status (some (mkSt i)))) ∧
    llen (runChan run4) = 6 :=
  ⟨by rfl, by rfl, by rfl⟩

/-- C4 amended: for every well-formed log state (ascending index, ids
bounded by the counter, no invalid blobs) whose start-time maximum id is
still indexed, a worker started with `backlog = -5` fetches only ids in the
inclusive window `[CurrentMax - 5, CurrentMax]` (at most 6 messages), and
its first pass already reaches `now = CurrentMax`, after which the loop
guard `now < end` fails: it terminates without tailing.  A worker started
with `backlog = 5` fetches exactly the same first chunk, also reaches
`now = CurrentMax`, but its window is unbounded (`end = 'inf'`), its guard
stays true, and a later id `CurrentMax + 1` appended to the index is
fetched by its next pass. -/
theorem backlog_window_amended (store : Store) (which : Which) (t0 t : Int)
    (hs : sortedQueue store) (hub : idsBounded store) (hng : noGarbage store)
    (hM : store.idkey ∈ store.queue)
    (ht : t ≤ t0 + KEEPALIVE_TIMEOUT) :
    (∀ i ∈ fetchedIds store (workerSetup store (-5) t0),
        (store.idkey : Int) - 5 ≤ (i : Int) ∧ i ≤ store.idkey) ∧
    fetchedIds store (workerSetup store 5 t0) =
      fetchedIds store (workerSetup store (-5) t0) ∧
    (∃ s', wStep store which t (workerSetup store (-5) t0) = some (StepRes.next s') ∧
        s'.now = (store.idkey : Int) ∧ s'.endB = some (store.idkey : Int) ∧
        ∀ ts, runW store which ts s' = RunRes.finished s') ∧
    (∃ s', wStep store which t (workerSetup store 5 t0) = some (StepRes.next s') ∧
        s'.now = (store.idkey : Int) ∧ s'.endB = none ∧
        nowLtEnd s'.now s'.endB = true ∧
        ∀ store2 : Store, store2.queue = store.queue ++ [store.idkey + 1] →
          store.idkey + 1 ∈ fetchedIds store2 s') := by
  obtain ⟨hlen, hMf, hlast⟩ := window_filter_facts store hs hM
  have hnegNow : (workerSetup store (-5) t0).now = (store.idkey : Int) - 5 := by
    show (store.idkey : Int) - |(-5 : Int)| = (store.idkey : Int) - 5
    norm_num
  have hnegEnd : (workerSetup store (-5) t0).endB = some (store.idkey : Int) := by
    show (if (-5 : Int) < 0 then some (store.idkey : Int) else none) = _
    norm_num
  have hposNow : (workerSetup store 5 t0).now = (store.idkey : Int) - 5 := by
    show (store.idkey : Int) - |(5 : Int)| = (store.idkey : Int) - 5
    norm_num
  have hposEnd : (workerSetup store 5 t0).endB = none := by
    show (if (5 : Int) < 0 then some (store.idkey : Int) else none) = _
    norm_num
  have htake : (store.queue.filter
      (scoreOk ((store.idkey : Int) - 5) (some (store.idkey : Int)))).length
        ≤ CHUNKSIZE :=
    le_trans hlen (by norm_num [CHUNKSIZE])
  have hfneg : fetchedIds store (workerSetup store (-5) t0) =
      store.queue.filter (scoreOk ((store.idkey : Int) - 5) (some (store.idkey : Int))) := by
    unfold fetchedIds zrangebyscore
    rw [hnegNow, hnegEnd]
    exact List.take_of_length_le htake
  have hfpos : fetchedIds store (workerSetup store 5 t0) =
      fetchedIds store (workerSetup store (-5) t0) := by
    rw [hfneg]
    unfold fetchedIds zrangebyscore
    rw [hposNow, hposEnd]
    have hcong : store.queue.filter (scoreOk ((store.idkey : Int) - 5) none) =
        store.queue.filter (scoreOk ((store.idkey : Int) - 5) (some (store.idkey : Int))) := by
      apply List.filter_congr
      intro i hi
      have hle : (i : Int) ≤ (store.idkey : Int) := by exact_mod_cast hub i hi
      unfold scoreOk
      simp [hle]
    rw [hcong]
    exact List.take_of_length_le htake
  have hkaNeg : ¬ ((workerSetup store (-5) t0).keepalive < t) := by
    show ¬ (t0 + KEEPALIVE_TIMEOUT < t)
    omega
  have hkaPos : ¬ ((workerSetup store 5 t0).keepalive < t) := by
    show ¬ (t0 + KEEPALIVE_TIMEOUT < t)
    omega
  have hneNeg : fetchedIds store (workerSetup store (-5) t0) ≠ [] := by
    rw [hfneg]
    exact List.ne_nil_of_mem hMf
  have hlastNeg : ∀ d, (fetchedIds store (workerSetup store (-5) t0)).getLastD d
      = store.idkey := by
    intro d
    rw [hfneg]
    exact hlast d
  refine ⟨?_, hfpos, ?_, ?_⟩
  · intro i hi
    rw [hfneg] at hi
    rcases List.mem_filter.mp hi with ⟨_, hok⟩
    unfold scoreOk at hok
    rw [Bool.and_eq_true] at hok
    rcases hok with ⟨h1, h2⟩
    rw [decide_eq_true_eq] at h1
    simp only [decide_eq_true_eq] at h2
    exact ⟨h1, by exact_mod_cast h2⟩
  · obtain ⟨s', hstep, hnow, hend⟩ :=
      wStep_to_M store which t (workerSetup store (-5) t0) hng hneNeg hlastNeg hkaNeg
    refine ⟨s', hstep, hnow, by rw [hend, hnegEnd], ?_⟩
    intro ts
    apply runW_done
    rw [hnow, hend, hnegEnd]
    simp [nowLtEnd]
  · have hnePos : fetchedIds store (workerSetup store 5 t0) ≠ [] := by
      rw [hfpos]
      exact hneNeg
    have hlastPos : ∀ d, (fetchedIds store (workerSetup store 5 t0)).getLastD d
        = store.idkey := by
      intro d
      rw [hfpos]
      exact hlastNeg d
    obtain ⟨s', hstep, hnow, hend⟩ :=
      wStep_to_M store which t (workerSetup store 5 t0) hng hnePos hlastPos hkaPos
    have hend' : s'.endB = none := by rw [hend, hposEnd]
    refine ⟨s', hstep, hnow, hend', by rw [hnow, hend']; rfl, ?_⟩
    intro store2 h2
    have hokM1 : scoreOk ((store.idkey : Int)) none (store.idkey + 1) = true := by
      unfold scoreOk
      simp only [Bool.and_true]
      rw [decide_eq_true_eq]
      push_cast
      omega
    have hfq : ∀ i ∈ store.queue.filter (scoreOk ((store.idkey : Int)) none),
        i = store.idkey := by
      intro i hi
      rcases List.mem_filter.mp hi with ⟨hiq, hok⟩
      unfold scoreOk at hok
      rw [Bool.and_eq_true] at hok
      rw [decide_eq_true_eq] at hok
      have h1 : (store.idkey : Int) ≤ (i : Int) := hok.1
      have h2 := hub i hiq
      omega
    have hnodup : store.queue.Nodup := hs.imp (fun h => Nat.ne_of_lt h)
    have hfqlen : (store.queue.filter (scoreOk ((store.idkey : Int)) none)).length ≤ 1 :=
      length_le_one_of_all_eq (hnodup.filter _) hfq
    unfold fetchedIds zrangebyscore
    rw [hnow, hend', h2, List.filter_append]
    have hsing : List.filter (scoreOk ((store.idkey : Int)) none) [store.idkey + 1]
        = [store.idkey + 1] := by
      simp [List.filter_cons, hokM1]
    rw [hsing]
    have hlen2 : (store.queue.filter (scoreOk ((store.idkey : Int)) none)
        ++ [store.idkey + 1]).length ≤ CHUNKSIZE := by
      rw [List.length_append]
      simp only [List.length_cons, List.length_nil]
      norm_num [CHUNKSIZE]
      omega
    rw [List.take_of_length_le hlen2]
    simp

/-- C4 witness: the amended statement instantiated on the ten-message log:
the `backlog = -5` worker's first pass lands on `now = 10` and every
continuation of the loop finishes. -/
theorem backlog_window_amended_witness :
    ∃ s', wStep store10 Which.firehose 0 (workerSetup store10 (-5) 0)
        = some (StepRes.next s') ∧
      s'.now = (store10.idkey : Int) ∧ s'.endB = some (store10.idkey : Int) ∧
      ∀ ts, runW store10 Which.firehose ts s' = RunRes.finished s' :=
  (backlog_window_amended store10 Which.firehose 0 0
    (by show List.Pairwise (· < ·) store10.queue; decide)
    (by show ∀ i ∈ store10.queue, i ≤ store10.idkey; decide)
    (by
      intro i
      show store10.msgs i ≠ some none
      unfold store10
      dsimp only
      split <;> simp)
    (by decide) (by decide)).2.2.1

/-- C5: with the batch's round-trip `LLEN` at or above
`MAX_OUTGOING_BACKLOG`, each of N further matching messages only increments
`tossed` (no enqueue of any kind); once a later batch starts with room, the
first matching message enqueues exactly one limit notice
`{"limit": {<which>: N}}` immediately followed by its payload, recording
the notification.  The batch's `outgoing_backlog` is the channel length
fetched in the same round trip. -/
theorem worker_backpressure_notice :
    (∀ (which : Which) (ms : List Status) (a : BAcc),
      (∀ m ∈ ms, criteria which m = true) →
      MAX_OUTGOING_BACKLOG ≤ a.outgoing_backlog →
      procBatch which (ms.map (fun m => some (some m))) a
        = some { a with tossed := a.tossed + ms.length }) ∧
    (∀ (which : Which) (st : Status) (a : BAcc),
      criteria which st = true →
      a.outgoing_backlog < MAX_OUTGOING_BACKLOG →
      a.tossed_notified ≠ a.tossed →
      procOne which st a =
        { a with
            last_sent_keepalive := false
            tossed_notified := a.tossed
            outgoing_backlog := a.outgoing_backlog + 1
            found_match := true
            pushes := a.pushes ++
              [Item.limit (whichName which) a.tossed, Item.status (some st)] }) ∧
    (∀ s : WState, (initBAcc s).outgoing_backlog = llen s.chan) :=
  ⟨bp_pinned, bp_notice, fun _ => rfl⟩

set_option maxRecDepth 4000 in
/-- C5 witness: three matching messages against a channel pinned at
`MAX_OUTGOING_BACKLOG` are all tossed; the next match with room is preceded
by exactly the limit notice carrying 3. -/
theorem worker_backpressure_notice_witness :
    (procBatch Which.firehose
        ([mkSt 1, mkSt 1, mkSt 1].map (fun m => some (some m)))
        (initBAcc pinState)
      = some { initBAcc pinState with
          tossed := (initBAcc pinState).tossed + [mkSt 1, mkSt 1, mkSt 1].length }) ∧
    procOne Which.firehose (mkSt 1)
        ⟨0, 3, 0, false, false, []⟩
      = { (⟨0, 3, 0, false, false, []⟩ : BAcc) with
          last_sent_keepalive := false
          tossed_notified := (⟨0, 3, 0, false, false, []⟩ : BAcc).tossed
          outgoing_backlog := (⟨0, 3, 0, false, false, []⟩ : BAcc).outgoing_backlog + 1
          found_match := true
          pushes := (⟨0, 3, 0, false, false, []⟩ : BAcc).pushes ++
            [Item.limit (whichName Which.firehose)
              (⟨0, 3, 0, false, false, []⟩ : BAcc).tossed,
             Item.status (some (mkSt 1))] } :=
  ⟨worker_backpressure_notice.1 Which.firehose [mkSt 1, mkSt 1, mkSt 1]
      (initBAcc pinState) (by decide) (by decide),
   worker_backpressure_notice.2.1 Which.firehose (mkSt 1)
      ⟨0, 3, 0, false, false, []⟩ rfl (by decide) (by decide)⟩

/-- C6: the Track evaluator returns true exactly when some comma-separated
OR-group's lowercase word set is contained in the lowercase word set of the
message text (`len(content & setx) == len(setx)` is the subset test), and
the worked example behaves as the spec states: `"streaming api rocks"`
matches `"streamapi,streaming api"` and not `"foo,bar baz"`. -/
theorem track_or_group_semantics :
    (∀ (content : String) (st : Status),
      TrackCriteria.call content st = true ↔
        ∃ g ∈ splitComma content.data, wordSet g ⊆ wordSet st.text.data) ∧
    TrackCriteria.call "streamapi,streaming api" trackExSt = true ∧
    TrackCriteria.call "foo,bar baz" trackExSt = false := by
  refine ⟨?_, by decide, by decide⟩
  intro content st
  unfold TrackCriteria.call TrackCriteria.words
  rw [List.any_eq_true]
  constructor
  · rintro ⟨setx, hmem, hcard⟩
    rcases List.mem_map.mp hmem with ⟨g, hg, rfl⟩
    rw [beq_iff_eq] at hcard
    exact ⟨g, hg, (card_inter_eq_iff_subset _ _).mp hcard⟩
  · rintro ⟨g, hg, hsub⟩
    refine ⟨wordSet g, List.mem_map.mpr ⟨g, hg, rfl⟩, ?_⟩
    rw [beq_iff_eq]
    exact (card_inter_eq_iff_subset _ _).mpr hsub

/-- C7: on an idle log, two consecutive expired keepalive windows with the
first window's heartbeat still unread make the worker delete the channel
and finish; and, at any keepalive expiry, the worker halts exactly when the
previous heartbeat is unconsumed with the channel non-empty, or when
pushing a fresh heartbeat reports a length at or above
`MAX_OUTGOING_BACKLOG`. -/
theorem worker_keepalive_two_windows :
    (isFinished runKa = true ∧ runChan runKa = none) ∧
    (∀ (t : Int) (s : WState), s.keepalive < t →
      ((∃ s', kaCheck false t s = StepRes.halt s') ↔
        ((s.last_sent_keepalive = true ∧ llen s.chan ≠ 0) ∨
          MAX_OUTGOING_BACKLOG ≤ (rpush s.chan Item.heartbeat).2))) := by
  refine ⟨⟨by rfl, by rfl⟩, ?_⟩
  intro t s ht
  rw [kaCheck]
  simp only [Bool.not_false, Bool.true_and, decide_eq_true ht, if_true]
  by_cases h1 : s.last_sent_keepalive = true ∧ llen s.chan ≠ 0
  · have hb : (s.last_sent_keepalive && (llen s.chan != 0)) = true := by
      simp [h1.1, h1.2]
    rw [if_pos hb]
    simp [h1]
  · have hb : ¬ (s.last_sent_keepalive && (llen s.chan != 0)) = true := by
      simp only [Bool.and_eq_true, bne_iff_ne]
      tauto
    rw [if_neg hb]
    by_cases h2 : MAX_OUTGOING_BACKLOG ≤ (rpush s.chan Item.heartbeat).2
    · rw [if_pos h2]
      simp [h1, h2]
    · rw [if_neg h2]
      constructor
      · rintro ⟨s', hs'⟩
        cases hs'
      · intro h
        exact absurd (h.resolve_left h1) h2

/-- C7 witness: a state whose previous heartbeat is unconsumed on a
non-empty channel halts at the next expiry, per the characterization. -/
theorem worker_keepalive_two_windows_witness :
    (∃ s', kaCheck false 31 kaState = StepRes.halt s') ↔
      ((kaState.last_sent_keepalive = true ∧ llen kaState.chan ≠ 0) ∨
        MAX_OUTGOING_BACKLOG ≤ (rpush kaState.chan Item.heartbeat).2) :=
  worker_keepalive_two_windows.2 31 kaState (by decide)

/-- C8: a replicator pass over fresh source ids copies every present
payload verbatim under its original id (destination `GET` returns the
source blob and the id joins the destination index) and resets the backoff
to the minimum; an idle pass doubles the backoff, capped at the maximum. -/
theorem replicator_fidelity_backoff :
    (∀ (source : Store) (r : RepState) (i : Nat) (b : Blob),
       r.thenId < i → i ≤ source.idkey → source.msgs i = some b →
       ((replicator_step source r).dest.msgs i = some b ∧
        i ∈ (replicator_step source r).dest.queue ∧
        (replicator_step source r).sleep = REP_MIN_SLEEP)) ∧
    (∀ (source : Store) (r : RepState), source.idkey = r.thenId →
       ((replicator_step source r).sleep = min REP_MAX_SLEEP (2 * r.sleep) ∧
        (replicator_step source r).sleep ≤ REP_MAX_SLEEP)) := by
  constructor
  · intro source r i b hlo hhi hsrc
    have hne : ¬ source.idkey = r.thenId := by omega
    have hmem : i ∈ List.range' (r.thenId + 1) (source.idkey - r.thenId) := by
      rw [List.mem_range'_1]
      omega
    unfold replicator_step
    rw [if_neg hne]
    refine ⟨?_, ?_, rfl⟩
    · simp only [repFold_msgs, if_pos hmem, hsrc, Option.getD]
    · exact repFold_queue _ _ _ _ (Or.inl hmem)
  · intro source r h
    unfold replicator_step
    rw [if_pos h]
    exact ⟨rfl, min_le_left _ _⟩

/-- C8 witness: replicating the one-message source into an empty
destination copies the payload of id 1 verbatim and resets the backoff. -/
theorem replicator_fidelity_backoff_witness :
    (replicator_step store1 rep0).dest.msgs 1 = some (some (mkSt 1)) ∧
    1 ∈ (replicator_step store1 rep0).dest.queue ∧
    (replicator_step store1 rep0).sleep = REP_MIN_SLEEP :=
  replicator_fidelity_backoff.1 store1 rep0 1 (some (mkSt 1))
    (by decide) (by decide) rfl

/-- C9: after any non-empty chunk the scan position becomes the chunk's
last id, and — the queue being ascending — the next range query is
inclusive of it: it is the head of the next chunk and, when its payload is
present, it is evaluated again.  Concretely, on the three-message log the
boundary message (id 3) is enqueued to the subscriber twice across two
consecutive non-empty chunks. -/
theorem worker_boundary_rescan :
    (∀ (store : Store) (which : Which) (t : Int) (s s' : WState),
      sortedQueue store → fetchedIds store s ≠ [] →
      wStep store which t s = some (StepRes.next s') →
      ∀ k : Nat, k = (fetchedIds store s).getLastD 0 →
      s'.now = (k : Int) ∧ s'.endB = s.endB ∧
      (fetchedIds store s').head? = some k ∧
      (∀ st, store.msgs k = some (some st) →
        k ∈ evaledIds store (fetchedIds store s'))) ∧
    isFuelOut run9 = true ∧
    countItem (runChan run9) (Item.status (some (mkSt 3))) = 2 ∧
    runChan run9 = some [Item.status (some (mkSt 1)), Item.status (some (mkSt 2)),
      Item.status (some (mkSt 3)), Item.status (some (mkSt 3))] :=
  ⟨fun store which t s s' hs hne hstep k hk =>
      wStep_rescan store which t s s' hs hne hstep k hk,
    by rfl, by rfl, by rfl⟩

/-- C9 witness: the three-message log's first pass lands on id 3, and the
next chunk starts with id 3 again, re-evaluating it. -/
theorem worker_boundary_rescan_witness :
    rescanS1.now = ((3 : Nat) : Int) ∧
    rescanS1.endB = (workerSetup store3 3 0).endB ∧
    (fetchedIds store3 rescanS1).head? = some 3 ∧
    (∀ st, store3.msgs 3 = some (some st) →
      3 ∈ evaledIds store3 (fetchedIds store3 rescanS1)) :=
  worker_boundary_rescan.1 store3 Which.firehose 0 (workerSetup store3 3 0)
    rescanS1
    (by show List.Pairwise (· < ·) store3.queue; decide)
    (by decide) (by rfl) 3 (by rfl)

/-- C10: an empty name in the Follow criteria (for example the trailing
comma of `'alice,'`) puts the empty string into the lowercased name set;
every message without a `retweeted_by` field then matches, because
`status.get('retweeted_by', '')` lowercases to the empty string. -/
theorem follow_trailing_comma_matches_all (content : String) (st : Status)
    (hc : [] ∈ FollowCriteria.people content)
    (hr : st.retweeted_by = none) :
    FollowCriteria.call content st = true := by
  unfold FollowCriteria.call
  rw [hr]
  simp only [Bool.or_eq_true, decide_eq_true_eq]
  right
  exact hc

/-- C10 witness: `'alice,'` yields the empty name, and a message by an
unrelated author with no `retweeted_by` field matches. -/
theorem follow_trailing_comma_matches_all_witness :
    ([] ∈ FollowCriteria.people "alice,") ∧
    FollowCriteria.call "alice," noRtSt = true :=
  ⟨by decide, follow_trailing_comma_matches_all "alice," noRtSt (by decide) rfl⟩
